import Mathlib

/-!
Shallow embedding of the kilo-rs terminal editor core (src/lib.rs) and
verification of its specification claims.

Strings from the Rust source are modelled as `List Char` (the content is
single-byte ASCII; the spec scopes out multi-byte grapheme handling), machine
integers (`usize`) as `Nat` with truncated subtraction matching the guarded
uses in the source, and the fallible byte reads of `editor_read_key` as an
explicit list of read outcomes.
-/

namespace KiloRs

/-- Tab stop width, `KILO_TAB_STOP` in src/lib.rs. -/
def KILO_TAB_STOP : Nat := 8

/-- `ctrl_key(k)` from src/lib.rs: `(k as u8) & 0x1f`. Masking with `0x1f` is
reduction mod 32, and the `as u8` truncation mod 256 is absorbed by it. -/
def ctrl_key (k : Char) : Nat := k.toNat % 32

/-- The `EditorKey` enum from src/lib.rs. -/
inductive EditorKey where
  | ArrowLeft
  | ArrowRight
  | ArrowUp
  | ArrowDown
  | DelKey
  | HomeKey
  | EndKey
  | PageUp
  | PageDown
  | Char (b : Nat)
deriving DecidableEq, Repr

/-- The `Row` struct from src/lib.rs: logical content and derived render. -/
structure Row where
  chars : List Char
  render : List Char
deriving DecidableEq, Repr

/-- The `Kilo` editor state from src/lib.rs, restricted to the fields the
rendering/viewport/input core reads or writes (the terminal handles and the
status-message fields are external collaborators). -/
structure Kilo where
  cx : Nat
  cy : Nat
  rx : Nat
  rowoff : Nat
  coloff : Nat
  screenrows : Nat
  screencols : Nat
  rows : List Row
  filename : List Char
deriving DecidableEq, Repr

/-- Length of the `chars` of row `i`, or 0 when `i` is out of range. The
source indexes `rows[i]` directly at its uses; the guards surrounding those
uses keep `i` in range, which the theorems' hypotheses reproduce. -/
def rowLenAt (rows : List Row) (i : Nat) : Nat :=
  match rows.get? i with
  | some r => r.chars.length
  | none => 0

/-- `editor_row_cx_to_rx` from src/lib.rs: scan `j` over `0..cx`; a tab at
position `j` adds `(KILO_TAB_STOP - 1) - rx % KILO_TAB_STOP` before the
unconditional `rx += 1`. -/
def editor_row_cx_to_rx (row : Row) (cx : Nat) : Nat :=
  (List.range cx).foldl
    (fun rx j =>
      if row.chars.get? j = some '\t' then
        rx + ((KILO_TAB_STOP - 1) - rx % KILO_TAB_STOP) + 1
      else
        rx + 1)
    0

theorem editor_row_cx_to_rx_zero (row : Row) : editor_row_cx_to_rx row 0 = 0 := rfl

theorem editor_row_cx_to_rx_succ (row : Row) (n : Nat) :
    editor_row_cx_to_rx row (n + 1) =
      if row.chars.get? n = some '\t' then
        editor_row_cx_to_rx row n
          + ((KILO_TAB_STOP - 1) - editor_row_cx_to_rx row n % KILO_TAB_STOP) + 1
      else
        editor_row_cx_to_rx row n + 1 := by
  unfold editor_row_cx_to_rx
  rw [List.range_succ, List.foldl_append]
  rfl

/-- Reference scan from the specification's wording: walk `chars[0..cx]`
starting from `rx = 0`, adding 1 per non-tab character, and advancing to
`((rx / tabstop) + 1) * tabstop` for each tab. Stated for comparison with
`editor_row_cx_to_rx`, which is translated from the source. -/
def rxScanSpec (cs : List Char) (cx : Nat) : Nat :=
  (cs.take cx).foldl
    (fun rx c =>
      if c = '\t' then (rx / KILO_TAB_STOP + 1) * KILO_TAB_STOP else rx + 1)
    0

theorem tab_step_eq (r : Nat) :
    r + ((KILO_TAB_STOP - 1) - r % KILO_TAB_STOP) + 1 =
      (r / KILO_TAB_STOP + 1) * KILO_TAB_STOP := by
  simp only [KILO_TAB_STOP]
  omega

theorem rxScanSpec_succ (cs : List Char) (n : Nat) (c : Char)
    (h : cs.get? n = some c) :
    rxScanSpec cs (n + 1) =
      if c = '\t' then
        (rxScanSpec cs n / KILO_TAB_STOP + 1) * KILO_TAB_STOP
      else
        rxScanSpec cs n + 1 := by
  unfold rxScanSpec
  rw [List.get?_eq_getElem?] at h
  rw [List.take_succ, h, List.foldl_append]
  rfl

theorem cx_to_rx_eq_scan (row : Row) (cx : Nat) (hcx : cx ≤ row.chars.length) :
    editor_row_cx_to_rx row cx = rxScanSpec row.chars cx := by
  induction cx with
  | zero => rfl
  | succ n ih =>
    have hn : n < row.chars.length := Nat.lt_of_succ_le hcx
    obtain ⟨c, hc⟩ : ∃ c, row.chars.get? n = some c := by
      rw [List.get?_eq_get hn]
      exact ⟨_, rfl⟩
    rw [editor_row_cx_to_rx_succ, rxScanSpec_succ row.chars n c hc, hc,
      ih (Nat.le_of_succ_le hcx)]
    by_cases ht : c = '\t'
    · simp only [ht, if_pos rfl, tab_step_eq]
    · rw [if_neg, if_neg ht]
      simp only [Option.some.injEq]
      exact ht

/-- A concrete row with content `"a\tb"`; its render plays no role in the
column mapping. -/
def rowATB : Row := ⟨"a\tb".toList, []⟩

/-- A concrete tab-free row with content `"ab"`. -/
def rowAB : Row := ⟨"ab".toList, "ab".toList⟩

/-- A concrete editor state: a 3×10 viewport over the single row `"ab"`, with
the cursor at `(cx, cy) = (1, 0)`. -/
def kiloW : Kilo :=
  { cx := 1, cy := 0, rx := 0, rowoff := 0, coloff := 0,
    screenrows := 3, screencols := 10, rows := [rowAB], filename := [] }

/-- Claim C4: `editor_row_cx_to_rx(row, cx)` equals the reference scan of
`chars[0..cx]` (1 per non-tab character, tabs advance to the next multiple of
the tab stop 8), and on the row `"a\tb"` it returns 1 at `cx = 1`, 8 at
`cx = 2`, and 9 at `cx = 3`. -/
theorem editor_row_cx_to_rx_spec_scan :
    (∀ (row : Row) (cx : Nat), cx ≤ row.chars.length →
        editor_row_cx_to_rx row cx = rxScanSpec row.chars cx) ∧
    editor_row_cx_to_rx rowATB 1 = 1 ∧
    editor_row_cx_to_rx rowATB 2 = 8 ∧
    editor_row_cx_to_rx rowATB 3 = 9 :=
  ⟨cx_to_rx_eq_scan, by decide, by decide, by decide⟩

/-- Witness for C4 at the concrete row `"a\tb"` and `cx = 2`. -/
theorem editor_row_cx_to_rx_spec_scan_witness :
    2 ≤ rowATB.chars.length ∧
      editor_row_cx_to_rx rowATB 2 = rxScanSpec rowATB.chars 2 :=
  ⟨by decide, editor_row_cx_to_rx_spec_scan.1 rowATB 2 (by decide)⟩

theorem cx_to_rx_le_succ (row : Row) (n : Nat) :
    editor_row_cx_to_rx row n ≤ editor_row_cx_to_rx row (n + 1) := by
  rw [editor_row_cx_to_rx_succ]
  split <;> omega

theorem cx_to_rx_mono (row : Row) (cx cx2 : Nat) (h : cx ≤ cx2) :
    editor_row_cx_to_rx row cx ≤ editor_row_cx_to_rx row cx2 := by
  induction cx2 with
  | zero =>
    have hz : cx = 0 := Nat.le_zero.mp h
    subst hz
    exact Nat.le_refl _
  | succ n ih =>
    rcases Nat.lt_or_ge cx (n + 1) with hlt | hge
    · exact Nat.le_trans (ih (Nat.lt_succ_iff.mp hlt)) (cx_to_rx_le_succ row n)
    · have he : cx = n + 1 := Nat.le_antisymm h hge
      subst he
      exact Nat.le_refl _

theorem cx_to_rx_id_of_no_tab (row : Row) (cx : Nat) (hnt : '\t' ∉ row.chars)
    (hcx : cx ≤ row.chars.length) :
    editor_row_cx_to_rx row cx = cx := by
  induction cx with
  | zero => rfl
  | succ n ih =>
    rw [editor_row_cx_to_rx_succ, if_neg, ih (Nat.le_of_succ_le hcx)]
    intro hmem
    exact hnt (List.get?_mem hmem)

/-- Claim C7: `editor_row_cx_to_rx` is monotone non-decreasing in `cx` over
`[0, len(row.chars)]`, and is the identity there when the row contains no tab
character. -/
theorem editor_row_cx_to_rx_monotone_id :
    (∀ (row : Row) (cx cx2 : Nat), cx ≤ cx2 → cx2 ≤ row.chars.length →
        editor_row_cx_to_rx row cx ≤ editor_row_cx_to_rx row cx2) ∧
    (∀ (row : Row) (cx : Nat), '\t' ∉ row.chars → cx ≤ row.chars.length →
        editor_row_cx_to_rx row cx = cx) :=
  ⟨fun row cx cx2 h _ => cx_to_rx_mono row cx cx2 h,
   cx_to_rx_id_of_no_tab⟩

/-- Witness for C7 on the rows `"a\tb"` (monotonicity at 1 ≤ 2) and `"ab"`
(identity at `cx = 2`). -/
theorem editor_row_cx_to_rx_monotone_id_witness :
    (1 ≤ 2 ∧ 2 ≤ rowATB.chars.length ∧
      editor_row_cx_to_rx rowATB 1 ≤ editor_row_cx_to_rx rowATB 2) ∧
    ('\t' ∉ rowAB.chars ∧ 2 ≤ rowAB.chars.length ∧
      editor_row_cx_to_rx rowAB 2 = 2) :=
  ⟨⟨by decide, by decide,
    editor_row_cx_to_rx_monotone_id.1 rowATB 1 2 (by decide) (by decide)⟩,
   ⟨by decide, by decide,
    editor_row_cx_to_rx_monotone_id.2 rowAB 2 (by decide) (by decide)⟩⟩

/-- `editor_update_row` from src/lib.rs: it builds a string of `KILO_TAB_STOP`
spaces and sets `row.render = row.chars.replace('\t', spaces)`. For the
single-character pattern `'\t'`, `String::replace` substitutes every tab
independently by those `KILO_TAB_STOP` spaces, i.e. a character-wise flat map. -/
def editor_update_row (row : Row) : Row :=
  { row with
    render :=
      row.chars.flatMap
        (fun c => if c = '\t' then List.replicate KILO_TAB_STOP ' ' else [c]) }

/-- `editor_append_row` from src/lib.rs: push a new row whose render is derived
by `editor_update_row`. -/
def editor_append_row (e : Kilo) (s : List Char) : Kilo :=
  { e with rows := e.rows ++ [editor_update_row { chars := s, render := [] }] }

/-- Reference tab expansion from the specification's wording: each tab is
replaced by just enough spaces (between 1 and `KILO_TAB_STOP`) to advance the
render column to the next multiple of the tab stop; other characters are
copied unchanged. -/
def refTabExpandAux : List Char → Nat → List Char
  | [], _ => []
  | c :: rest, col =>
    if c = '\t' then
      List.replicate (KILO_TAB_STOP - col % KILO_TAB_STOP) ' '
        ++ refTabExpandAux rest (col + (KILO_TAB_STOP - col % KILO_TAB_STOP))
    else
      c :: refTabExpandAux rest (col + 1)

/-- Reference tab expansion started at render column 0. -/
def refTabExpand (cs : List Char) : List Char := refTabExpandAux cs 0

/-- Claim C1 fails on the code: on the line `"a\tb"`, `editor_update_row`
renders the tab as exactly 8 spaces (the tab sits at render column 1, so the
result has length 10), while the reference expansion pads only to the next
tab stop (7 spaces, length 9). `editor_row_cx_to_rx` uses the tab-stop
arithmetic, so the fixed-width replacement also breaks cursor/render
consistency. -/
theorem update_row_fixed_width_tab_bug :
    (editor_update_row rowATB).render = "a        b".toList ∧
    refTabExpand rowATB.chars = "a       b".toList ∧
    (editor_update_row rowATB).render ≠ refTabExpand rowATB.chars ∧
    (editor_update_row rowATB).render.get? (editor_row_cx_to_rx rowATB 2)
      = some ' ' ∧
    (refTabExpand rowATB.chars).get? (editor_row_cx_to_rx rowATB 2) = some 'b' :=
  ⟨by decide, by decide, by decide, by decide, by decide⟩

/-- `editor_scroll` from src/lib.rs: recompute `rx` (0 when `cy` is past the
last row), then minimally adjust `rowoff` and `coloff` so the cursor is inside
the viewport. The subtraction `cy - screenrows + 1` is guarded by
`cy ≥ rowoff + screenrows`, so the truncated `Nat` subtraction coincides with
the `usize` arithmetic of the source (likewise for columns). -/
def editor_scroll (e : Kilo) : Kilo :=
  let rx :=
    if h : e.cy < e.rows.length then
      editor_row_cx_to_rx (e.rows.get ⟨e.cy, h⟩) e.cx
    else 0
  let rowoff1 := if e.cy < e.rowoff then e.cy else e.rowoff
  let rowoff2 :=
    if e.cy ≥ rowoff1 + e.screenrows then e.cy - e.screenrows + 1 else rowoff1
  let coloff1 := if rx < e.coloff then rx else e.coloff
  let coloff2 :=
    if rx ≥ coloff1 + e.screencols then rx - e.screencols + 1 else coloff1
  { e with rx := rx, rowoff := rowoff2, coloff := coloff2 }

/-- Claim C2: with at least one screen row and column and a non-empty
document, `editor_scroll` re-establishes the viewport invariant
`rowoff ≤ cy < rowoff + screenrows` and `coloff ≤ rx < coloff + screencols`,
where `rx` is the value it recomputes. Proved for every state, which covers
in particular every state reachable via the documented transitions. -/
theorem editor_scroll_viewport_invariant (e : Kilo)
    (hr : 1 ≤ e.screenrows) (hc : 1 ≤ e.screencols) (_hne : e.rows ≠ []) :
    (editor_scroll e).rowoff ≤ (editor_scroll e).cy ∧
    (editor_scroll e).cy < (editor_scroll e).rowoff + (editor_scroll e).screenrows ∧
    (editor_scroll e).coloff ≤ (editor_scroll e).rx ∧
    (editor_scroll e).rx < (editor_scroll e).coloff + (editor_scroll e).screencols := by
  simp only [editor_scroll]
  split <;> split <;> split <;> split <;> split <;> simp_all <;> omega

/-- Witness for C2 on a concrete 3×10 viewport over a one-line document. -/
theorem editor_scroll_viewport_invariant_witness :
    1 ≤ kiloW.screenrows ∧ 1 ≤ kiloW.screencols ∧ kiloW.rows ≠ [] ∧
    ((editor_scroll kiloW).rowoff ≤ (editor_scroll kiloW).cy ∧
     (editor_scroll kiloW).cy <
       (editor_scroll kiloW).rowoff + (editor_scroll kiloW).screenrows ∧
     (editor_scroll kiloW).coloff ≤ (editor_scroll kiloW).rx ∧
     (editor_scroll kiloW).rx <
       (editor_scroll kiloW).coloff + (editor_scroll kiloW).screencols) :=
  ⟨by decide, by decide, by decide,
   editor_scroll_viewport_invariant kiloW (by decide) (by decide) (by decide)⟩

/-- The arrow-key `match` of `editor_move_cursor` from src/lib.rs, before the
final clamp of `cx`. The source indexes `rows[cy - 1]` directly in the
ArrowLeft branch; `rowLenAt` models that lookup (the branch guard together
with the state invariant `cy ≤ rows.len()` keeps it in range). -/
def arrowStep (e : Kilo) (key : EditorKey) : Kilo :=
  match key with
  | .ArrowLeft =>
    if e.cx ≠ 0 then
      { e with cx := e.cx - 1 }
    else if e.cy > 0 then
      { e with cy := e.cy - 1, cx := rowLenAt e.rows (e.cy - 1) }
    else e
  | .ArrowRight =>
    match e.rows.get? e.cy with
    | some r =>
      if e.cx < r.chars.length then
        { e with cx := e.cx + 1 }
      else if e.cx = r.chars.length then
        { e with cy := e.cy + 1, cx := 0 }
      else e
    | none => e
  | .ArrowUp => if e.cy ≠ 0 then { e with cy := e.cy - 1 } else e
  | .ArrowDown => if e.cy < e.rows.length then { e with cy := e.cy + 1 } else e
  | _ => e

/-- The trailing clamp of `editor_move_cursor` from src/lib.rs: `cx` is cut
down to the length of the row now under the cursor (0 when none). -/
def clampCx (s : Kilo) : Kilo :=
  if s.cx > rowLenAt s.rows s.cy then { s with cx := rowLenAt s.rows s.cy } else s

/-- `editor_move_cursor` from src/lib.rs: the arrow-key transition followed by
the unconditional clamp of `cx`. -/
def editor_move_cursor (e : Kilo) (key : EditorKey) : Kilo :=
  clampCx (arrowStep e key)

/-- The arrow transitions as the claim words them, for refinement comparison:
ArrowLeft steps left or wraps to the end of the previous row; ArrowRight
steps right or wraps to the start of the next row and is a no-op past the
last row; ArrowUp/ArrowDown move `cy` by ∓1 clamped to `[0, len(rows)]`. -/
def arrowStepDoc (e : Kilo) (key : EditorKey) : Kilo :=
  match key with
  | .ArrowLeft =>
    if e.cx > 0 then
      { e with cx := e.cx - 1 }
    else if e.cy > 0 then
      { e with cy := e.cy - 1, cx := rowLenAt e.rows (e.cy - 1) }
    else e
  | .ArrowRight =>
    if e.cy < e.rows.length then
      if e.cx < rowLenAt e.rows e.cy then
        { e with cx := e.cx + 1 }
      else if e.cx = rowLenAt e.rows e.cy then
        { e with cy := e.cy + 1, cx := 0 }
      else e
    else e
  | .ArrowUp => { e with cy := e.cy - 1 }
  | .ArrowDown => { e with cy := min (e.cy + 1) e.rows.length }
  | _ => e

/-- The clamp as the claim words it: `cx` is clamped to the length of the row
now under the cursor (0 if `cy` is past the end of the document). -/
def clampCxDoc (s : Kilo) : Kilo :=
  { s with cx := min s.cx (rowLenAt s.rows s.cy) }

/-- Cursor movement as documented: transition, then clamp. -/
def move_cursor_doc (e : Kilo) (key : EditorKey) : Kilo :=
  clampCxDoc (arrowStepDoc e key)

theorem clampCx_eq_doc (s : Kilo) : clampCx s = clampCxDoc s := by
  unfold clampCx clampCxDoc
  by_cases h : s.cx > rowLenAt s.rows s.cy
  · rw [if_pos h, Nat.min_eq_right (Nat.le_of_lt h)]
  · rw [if_neg h, Nat.min_eq_left (by omega)]

theorem arrowStep_left_eq (e : Kilo) :
    arrowStep e .ArrowLeft = arrowStepDoc e .ArrowLeft := by
  simp only [arrowStep, arrowStepDoc]
  by_cases h : e.cx = 0
  · rw [if_neg (show ¬e.cx ≠ 0 from by omega),
      if_neg (show ¬e.cx > 0 from by omega)]
  · rw [if_pos (show e.cx ≠ 0 from h),
      if_pos (show e.cx > 0 from by omega)]

theorem arrowStep_right_eq (e : Kilo) :
    arrowStep e .ArrowRight = arrowStepDoc e .ArrowRight := by
  simp only [arrowStep, arrowStepDoc, rowLenAt]
  by_cases h : e.cy < e.rows.length
  · obtain ⟨r, hr⟩ : ∃ r, e.rows.get? e.cy = some r := by
      rw [List.get?_eq_get h]
      exact ⟨_, rfl⟩
    simp only [hr, if_pos h]
  · have hr : e.rows.get? e.cy = none := List.get?_eq_none.mpr (by omega)
    simp only [hr, if_neg h]

theorem arrowStep_up_eq (e : Kilo) :
    arrowStep e .ArrowUp = arrowStepDoc e .ArrowUp := by
  simp only [arrowStep, arrowStepDoc]
  by_cases h : e.cy = 0
  · rw [if_neg (show ¬e.cy ≠ 0 from by omega),
      show e.cy - 1 = e.cy from by omega]
  · rw [if_pos (show e.cy ≠ 0 from h)]

theorem arrowStep_down_eq (e : Kilo) (hcy : e.cy ≤ e.rows.length) :
    arrowStep e .ArrowDown = arrowStepDoc e .ArrowDown := by
  simp only [arrowStep, arrowStepDoc]
  by_cases h : e.cy < e.rows.length
  · rw [if_pos h, Nat.min_eq_left (by omega)]
  · rw [if_neg h, Nat.min_eq_right (by omega),
      show e.rows.length = e.cy from by omega]

/-- Claim C5: on every editor state satisfying the data-model invariant
`cy ≤ len(rows)`, `editor_move_cursor` agrees with the documented arrow
transitions (including the final clamp of `cx`) for each of the four arrow
keys. -/
theorem editor_move_cursor_matches_doc (e : Kilo) (key : EditorKey)
    (hcy : e.cy ≤ e.rows.length)
    (hkey : key = .ArrowLeft ∨ key = .ArrowRight ∨
      key = .ArrowUp ∨ key = .ArrowDown) :
    editor_move_cursor e key = move_cursor_doc e key := by
  unfold editor_move_cursor move_cursor_doc
  rcases hkey with h | h | h | h <;> subst h
  · rw [arrowStep_left_eq, clampCx_eq_doc]
  · rw [arrowStep_right_eq, clampCx_eq_doc]
  · rw [arrowStep_up_eq, clampCx_eq_doc]
  · rw [arrowStep_down_eq e hcy, clampCx_eq_doc]

/-- Witness for C5: ArrowRight on the concrete state `kiloW`. -/
theorem editor_move_cursor_matches_doc_witness :
    kiloW.cy ≤ kiloW.rows.length ∧
      editor_move_cursor kiloW .ArrowRight = move_cursor_doc kiloW .ArrowRight :=
  ⟨by decide,
   editor_move_cursor_matches_doc kiloW .ArrowRight (by decide)
     (Or.inr (Or.inl rfl))⟩

/-- `editor_process_keypress` from src/lib.rs, as the state transition driven
by one already-decoded key: `false` means the quit key (Ctrl-Q) was seen and
the main loop terminates; every other key yields `true` with the updated
state. Keys with no handler (`_ => {}` in the source) leave the state
unchanged. -/
def editor_process_keypress (e : Kilo) (c : EditorKey) : Bool × Kilo :=
  match c with
  | .Char b => if b = ctrl_key 'q' then (false, e) else (true, e)
  | .HomeKey => (true, { e with cx := 0 })
  | .EndKey =>
    (true,
      if h : e.cy < e.rows.length then
        { e with cx := (e.rows.get ⟨e.cy, h⟩).chars.length }
      else e)
  | .PageUp =>
    let e1 := { e with cy := e.rowoff }
    (true, Nat.iterate (fun s => editor_move_cursor s .ArrowUp) e.screenrows e1)
  | .PageDown =>
    let cy1 := e.rowoff + e.screenrows - 1
    let cy2 := if cy1 > e.rows.length then e.rows.length else cy1
    let e1 := { e with cy := cy2 }
    (true, Nat.iterate (fun s => editor_move_cursor s .ArrowDown) e.screenrows e1)
  | .ArrowUp => (true, editor_move_cursor e .ArrowUp)
  | .ArrowDown => (true, editor_move_cursor e .ArrowDown)
  | .ArrowLeft => (true, editor_move_cursor e .ArrowLeft)
  | .ArrowRight => (true, editor_move_cursor e .ArrowRight)
  | .DelKey => (true, e)

/-- Claim C8: PageUp snaps `cy` to `rowoff` and then applies the ArrowUp
transition `screenrows` times; PageDown snaps `cy` to
`min(rowoff + screenrows - 1, len(rows))` and then applies the ArrowDown
transition `screenrows` times. The `screenrows ≥ 1` hypothesis keeps the
`usize` subtraction of the source well defined. -/
theorem editor_process_keypress_page_moves (e : Kilo) (_hr : 1 ≤ e.screenrows) :
    editor_process_keypress e .PageUp =
      (true, Nat.iterate (fun s => editor_move_cursor s .ArrowUp) e.screenrows
        { e with cy := e.rowoff }) ∧
    editor_process_keypress e .PageDown =
      (true, Nat.iterate (fun s => editor_move_cursor s .ArrowDown) e.screenrows
        { e with cy := min (e.rowoff + e.screenrows - 1) e.rows.length }) := by
  constructor
  · rfl
  · have hmin :
        (if e.rowoff + e.screenrows - 1 > e.rows.length then e.rows.length
          else e.rowoff + e.screenrows - 1)
          = min (e.rowoff + e.screenrows - 1) e.rows.length := by
      split <;> omega
    simp only [editor_process_keypress, hmin]

/-- Witness for C8: PageUp on the concrete state `kiloW`. -/
theorem editor_process_keypress_page_moves_witness :
    1 ≤ kiloW.screenrows ∧
      editor_process_keypress kiloW .PageUp =
        (true, Nat.iterate (fun s => editor_move_cursor s .ArrowUp)
          kiloW.screenrows { kiloW with cy := kiloW.rowoff }) :=
  ⟨by decide, (editor_process_keypress_page_moves kiloW (by decide)).1⟩

/-- Error taxonomy of one `read` call as `editor_read_key` distinguishes it:
`ErrorKind::Interrupted` versus every other kind. -/
inductive ReadErr where
  | intr
  | other
deriving DecidableEq, Repr

/-- Outcome of one `read` on a 1-byte buffer: one byte delivered, a
successful zero-byte read (the `VTIME` timeout or end of input), or an
error of one of the two kinds. The input stream of `editor_read_key` is a
list of such outcomes; a read past the end of the list is a zero-byte read. -/
inductive ReadOutcome where
  | byte (b : Nat)
  | noData
  | err (k : ReadErr)
deriving DecidableEq, Repr

/-- The initial-byte read loop of `editor_read_key` from src/lib.rs:
`while let Err(e) = read { if e.kind() != Interrupted return Err(e) }`. An
interrupted read is retried; any other error is returned. On success the
byte read is yielded; a zero-byte success leaves the buffer's initial 0, so
the loop yields 0. -/
def firstRead : List ReadOutcome → Except ReadErr (Nat × List ReadOutcome)
  | [] => .ok (0, [])
  | .byte b :: rest => .ok (b, rest)
  | .noData :: rest => .ok (0, rest)
  | .err .intr :: rest => firstRead rest
  | .err .other :: _ => .error .other

/-- A follow-up read of `editor_read_key`, performed with the `?` operator:
any error — interrupted included — is propagated; success yields the byte
read, or `none` for a zero-byte read (`read(..)? != 1` in the source). -/
def followRead : List ReadOutcome → Except ReadErr (Option Nat × List ReadOutcome)
  | [] => .ok (none, [])
  | .byte b :: rest => .ok (some b, rest)
  | .noData :: rest => .ok (none, rest)
  | .err k :: _ => .error k

/-- `editor_read_key` from src/lib.rs over an explicit stream of read
outcomes. Byte constants: 0x1B escape, 0x5B `[`, 0x4F `O`, 0x7E `~`,
0x30–0x39 digits, 0x41–0x44 `A`–`D`, 0x48 `H`, 0x46 `F`. -/
def editor_read_key (input : List ReadOutcome) : Except ReadErr EditorKey :=
  match firstRead input with
  | .error e => .error e
  | .ok (c, rest) =>
    if c = 0x1B then
      match followRead rest with
      | .error e => .error e
      | .ok (none, _) => .ok (.Char c)
      | .ok (some s0, rest1) =>
        match followRead rest1 with
        | .error e => .error e
        | .ok (none, _) => .ok (.Char c)
        | .ok (some s1, rest2) =>
          if s0 = 0x5B then
            if 0x30 ≤ s1 ∧ s1 ≤ 0x39 then
              match followRead rest2 with
              | .error e => .error e
              | .ok (none, _) => .ok (.Char c)
              | .ok (some s2, _) =>
                if s2 = 0x7E then
                  if s1 = 0x31 then .ok .HomeKey
                  else if s1 = 0x33 then .ok .DelKey
                  else if s1 = 0x34 then .ok .EndKey
                  else if s1 = 0x35 then .ok .PageUp
                  else if s1 = 0x36 then .ok .PageDown
                  else if s1 = 0x37 then .ok .HomeKey
                  else if s1 = 0x38 then .ok .EndKey
                  else .ok (.Char c)
                else .ok (.Char c)
            else
              if s1 = 0x41 then .ok .ArrowUp
              else if s1 = 0x42 then .ok .ArrowDown
              else if s1 = 0x43 then .ok .ArrowRight
              else if s1 = 0x44 then .ok .ArrowLeft
              else if s1 = 0x48 then .ok .HomeKey
              else if s1 = 0x46 then .ok .EndKey
              else .ok (.Char c)
          else if s0 = 0x4F then
            if s1 = 0x48 then .ok .HomeKey
            else if s1 = 0x46 then .ok .EndKey
            else .ok (.Char c)
          else .ok (.Char c)
    else .ok (.Char c)

/-- An input stream on which every read delivers exactly one byte. -/
def bytesInput (bs : List Nat) : List ReadOutcome := bs.map .byte

/-- Claim C3: the decode table of `editor_read_key` on byte streams. A
non-escape first byte decodes to itself; `ESC [ <digit> ~` maps 1/7 to Home,
3 to Del, 4/8 to End, 5/6 to PageUp/PageDown and any other digit to
`Char 0x1B`; `ESC [ <non-digit>` maps A/B/C/D to the arrows, H/F to Home/End
and anything else to `Char 0x1B`; `ESC O` maps H/F to Home/End and anything
else to `Char 0x1B`; any other second byte, and a lone escape with no
follow-up bytes, decode to `Char 0x1B`. -/
theorem editor_read_key_decode_table :
    (∀ (b : Nat) (rest : List Nat), b ≠ 0x1B →
      editor_read_key (bytesInput (b :: rest)) = .ok (.Char b)) ∧
    (∀ rest : List Nat,
      editor_read_key (bytesInput (0x1B :: 0x5B :: 0x31 :: 0x7E :: rest)) = .ok .HomeKey ∧
      editor_read_key (bytesInput (0x1B :: 0x5B :: 0x37 :: 0x7E :: rest)) = .ok .HomeKey ∧
      editor_read_key (bytesInput (0x1B :: 0x5B :: 0x33 :: 0x7E :: rest)) = .ok .DelKey ∧
      editor_read_key (bytesInput (0x1B :: 0x5B :: 0x34 :: 0x7E :: rest)) = .ok .EndKey ∧
      editor_read_key (bytesInput (0x1B :: 0x5B :: 0x38 :: 0x7E :: rest)) = .ok .EndKey ∧
      editor_read_key (bytesInput (0x1B :: 0x5B :: 0x35 :: 0x7E :: rest)) = .ok .PageUp ∧
      editor_read_key (bytesInput (0x1B :: 0x5B :: 0x36 :: 0x7E :: rest)) = .ok .PageDown) ∧
    (∀ (d : Nat) (rest : List Nat), 0x30 ≤ d → d ≤ 0x39 →
      d ≠ 0x31 → d ≠ 0x33 → d ≠ 0x34 → d ≠ 0x35 → d ≠ 0x36 → d ≠ 0x37 → d ≠ 0x38 →
      editor_read_key (bytesInput (0x1B :: 0x5B :: d :: 0x7E :: rest)) = .ok (.Char 0x1B)) ∧
    (∀ rest : List Nat,
      editor_read_key (bytesInput (0x1B :: 0x5B :: 0x41 :: rest)) = .ok .ArrowUp ∧
      editor_read_key (bytesInput (0x1B :: 0x5B :: 0x42 :: rest)) = .ok .ArrowDown ∧
      editor_read_key (bytesInput (0x1B :: 0x5B :: 0x43 :: rest)) = .ok .ArrowRight ∧
      editor_read_key (bytesInput (0x1B :: 0x5B :: 0x44 :: rest)) = .ok .ArrowLeft ∧
      editor_read_key (bytesInput (0x1B :: 0x5B :: 0x48 :: rest)) = .ok .HomeKey ∧
      editor_read_key (bytesInput (0x1B :: 0x5B :: 0x46 :: rest)) = .ok .EndKey) ∧
    (∀ (l : Nat) (rest : List Nat), ¬(0x30 ≤ l ∧ l ≤ 0x39) →
      l ≠ 0x41 → l ≠ 0x42 → l ≠ 0x43 → l ≠ 0x44 → l ≠ 0x48 → l ≠ 0x46 →
      editor_read_key (bytesInput (0x1B :: 0x5B :: l :: rest)) = .ok (.Char 0x1B)) ∧
    (∀ rest : List Nat,
      editor_read_key (bytesInput (0x1B :: 0x4F :: 0x48 :: rest)) = .ok .HomeKey ∧
      editor_read_key (bytesInput (0x1B :: 0x4F :: 0x46 :: rest)) = .ok .EndKey) ∧
    (∀ (l : Nat) (rest : List Nat), l ≠ 0x48 → l ≠ 0x46 →
      editor_read_key (bytesInput (0x1B :: 0x4F :: l :: rest)) = .ok (.Char 0x1B)) ∧
    (∀ (b : Nat) (rest : List Nat), b ≠ 0x5B → b ≠ 0x4F →
      editor_read_key (bytesInput (0x1B :: b :: rest)) = .ok (.Char 0x1B)) ∧
    editor_read_key (bytesInput [0x1B]) = .ok (.Char 0x1B) := by
  refine ⟨?_, ?_, ?_, ?_, ?_, ?_, ?_, ?_, rfl⟩
  · intro b rest hb
    simp [editor_read_key, bytesInput, firstRead, hb]
  · intro rest
    refine ⟨rfl, rfl, rfl, rfl, rfl, rfl, rfl⟩
  · intro d rest h0 h9 h1 h3 h4 h5 h6 h7 h8
    simp [editor_read_key, bytesInput, firstRead, followRead,
      h0, h9, h1, h3, h4, h5, h6, h7, h8]
  · intro rest
    refine ⟨rfl, rfl, rfl, rfl, rfl, rfl⟩
  · intro l rest hd hA hB hC hD hH hF
    simp [editor_read_key, bytesInput, firstRead, followRead,
      hd, hA, hB, hC, hD, hH, hF]
  · intro rest
    exact ⟨rfl, rfl⟩
  · intro l rest hH hF
    simp [editor_read_key, bytesInput, firstRead, followRead, hH, hF]
  · intro b rest hlb hO
    cases rest with
    | nil => simp [editor_read_key, bytesInput, firstRead, followRead, hlb, hO]
    | cons x xs =>
      simp [editor_read_key, bytesInput, firstRead, followRead, hlb, hO]

/-- Witness for C3: the plain byte 65 (`A`) decodes to `Char 65`. -/
theorem editor_read_key_decode_table_witness :
    (65 : Nat) ≠ 0x1B ∧
      editor_read_key (bytesInput (65 :: [])) = .ok (.Char 65) :=
  ⟨by decide, editor_read_key_decode_table.1 65 [] (by decide)⟩

/-- Counterexample to claim C6: when the first byte is the escape byte and
the following read errors with `ErrorKind::Interrupted`, the follow-up read
is performed with the `?` operator, so the interruption is NOT retried — it
surfaces to the caller as an error, contradicting the claim that an
interrupted read is retried transparently at every read. -/
theorem editor_read_key_interrupted_followup_error :
    editor_read_key [.byte 0x1B, .err .intr] = .error .intr := rfl

/-- Amended claim C6: only the initial read retries interrupted reads
transparently (and surfaces every other error); a follow-up read that
delivers no byte degrades to `Char(0x1B)`; a follow-up read that fails with
an error — interrupted included — is propagated to the caller. -/
theorem editor_read_key_error_paths :
    (∀ input : List ReadOutcome,
      editor_read_key (.err .intr :: input) = editor_read_key input) ∧
    (∀ input : List ReadOutcome,
      editor_read_key (.err .other :: input) = .error .other) ∧
    (∀ input : List ReadOutcome,
      editor_read_key (.byte 0x1B :: .noData :: input) = .ok (.Char 0x1B)) ∧
    editor_read_key [.byte 0x1B] = .ok (.Char 0x1B) ∧
    (∀ (k : ReadErr) (input : List ReadOutcome),
      editor_read_key (.byte 0x1B :: .err k :: input) = .error k) := by
  refine ⟨?_, fun _ => rfl, fun _ => rfl, rfl, fun k _ => rfl⟩
  intro input
  simp only [editor_read_key, firstRead]

/-- `KILO_VERSION` from src/lib.rs is `option_env!("CARGO_PKG_VERSION")`, a
build-time constant that only feeds the welcome banner text; modelled as the
value of a build without that variable. No claim depends on it. -/
def KILO_VERSION : Option (List Char) := none

/-- The welcome-banner branch of `editor_draw_rows` from src/lib.rs: the
banner text truncated to the screen width, centred with a leading `~` when
there is any padding. -/
def welcomeRow (e : Kilo) : List Char :=
  let welcome :=
    match KILO_VERSION with
    | some v => "Kilo editor -- version ".toList ++ v
    | none => "Kilo editor".toList
  let welcome := welcome.take e.screencols
  let padding := (e.screencols - welcome.length) / 2
  if padding > 0 then
    '~' :: (List.replicate (padding - 1) ' ' ++ welcome)
  else
    List.replicate padding ' ' ++ welcome

/-- The visible text emitted for screen row `y` by `editor_draw_rows` in
src/lib.rs, excluding the trailing clear-line and CRLF control bytes: the
welcome banner or a `~` for rows past the end of the document, otherwise the
clamped slice of the row's render starting at `coloff`. The slice length is
`len(render).saturating_sub(coloff)` capped at `screencols`, and nothing is
emitted when it is 0. -/
def editor_draw_row (e : Kilo) (y : Nat) : List Char :=
  let filerow := y + e.rowoff
  match e.rows.get? filerow with
  | none =>
    if e.rows.isEmpty ∧ y = e.screenrows / 3 then welcomeRow e else ['~']
  | some row =>
    let line := row.render
    let len0 := line.length - e.coloff
    let len := if len0 > e.screencols then e.screencols else len0
    if len > 0 then (line.drop e.coloff).take len else []

/-- The visible text of one frame's rows, one entry per screen row. -/
def editor_draw_rows (e : Kilo) : List (List Char) :=
  (List.range e.screenrows).map (editor_draw_row e)

/-- Claim C9: for a visible document row, the emitted text is the slice of
its render starting at `coloff` of length `min(screencols, len(render) -
coloff)` with the subtraction clamped at 0; in particular a `coloff` at or
beyond the render length yields the empty slice, and whenever the slice is
taken its bounds lie inside the render, so the draw cannot fail. -/
theorem editor_draw_row_slice_clamped (e : Kilo) (y : Nat) (row : Row)
    (hrow : e.rows.get? (y + e.rowoff) = some row) :
    editor_draw_row e y =
      (row.render.drop e.coloff).take
        (min e.screencols (row.render.length - e.coloff)) ∧
    (row.render.length ≤ e.coloff → editor_draw_row e y = []) ∧
    (0 < min e.screencols (row.render.length - e.coloff) →
      e.coloff + min e.screencols (row.render.length - e.coloff)
        ≤ row.render.length) := by
  simp only [editor_draw_row, hrow]
  refine ⟨?_, ?_, by omega⟩
  · split
    next h1 =>
      split
      next h2 =>
        rw [Nat.min_eq_left (by omega)]
      next h2 =>
        rw [Nat.min_eq_left (by omega), show e.screencols = 0 from by omega,
          List.take_zero]
    next h1 =>
      split
      next h2 =>
        rw [Nat.min_eq_right (by omega)]
      next h2 =>
        rw [Nat.min_eq_right (by omega),
          show row.render.length - e.coloff = 0 from by omega, List.take_zero]
  · intro hco
    rw [show row.render.length - e.coloff = 0 from by omega]
    simp

/-- Witness for C9 at the concrete state `kiloW`, screen row 0. -/
theorem editor_draw_row_slice_clamped_witness :
    kiloW.rows.get? (0 + kiloW.rowoff) = some rowAB ∧
      (editor_draw_row kiloW 0 =
        (rowAB.render.drop kiloW.coloff).take
          (min kiloW.screencols (rowAB.render.length - kiloW.coloff)) ∧
       (rowAB.render.length ≤ kiloW.coloff → editor_draw_row kiloW 0 = []) ∧
       (0 < min kiloW.screencols (rowAB.render.length - kiloW.coloff) →
         kiloW.coloff + min kiloW.screencols (rowAB.render.length - kiloW.coloff)
           ≤ rowAB.render.length)) :=
  ⟨by decide, editor_draw_row_slice_clamped kiloW 0 rowAB (by decide)⟩

/-- Decimal rendering of a `usize`, as Rust's `format!("{}", n)` emits it:
most significant digit first. Structural recursion on a fuel of `n + 1`,
which always suffices since a number has at most `n + 1` decimal digits. -/
def natDigitsGo (fuel n : Nat) : List Char :=
  match fuel with
  | 0 => []
  | fuel + 1 =>
    if n < 10 then [Nat.digitChar n]
    else natDigitsGo fuel (n / 10) ++ [Nat.digitChar (n % 10)]

/-- Decimal digit string of `n`. -/
def natDigits (n : Nat) : List Char := natDigitsGo (n + 1) n

theorem natDigits_ne_nil (n : Nat) : natDigits n ≠ [] := by
  unfold natDigits natDigitsGo
  split
  · simp
  · simp

/-- The left status text of `editor_draw_status_bar` from src/lib.rs:
`format!("{:.20} - {} lines", filename, rows.len())` (the `{:.20}` precision
truncates the filename to 20 characters), then truncated to the screen
width. -/
def statusLeft (e : Kilo) : List Char :=
  (e.filename.take 20 ++ " - ".toList ++ natDigits e.rows.length
    ++ " lines".toList).take e.screencols

/-- The right status indicator: `format!("{}/{}", cy + 1, rows.len())`. -/
def statusRight (e : Kilo) : List Char :=
  natDigits (e.cy + 1) ++ '/' :: natDigits e.rows.length

/-- The padding loop of `editor_draw_status_bar` from src/lib.rs, starting
from column `l`: while `l < screencols`, either the remaining width equals
the indicator's length — then the indicator is appended and the loop breaks —
or one space is appended and `l` increases. -/
def statusPad (screencols : Nat) (rstatus : List Char) (l : Nat) : List Char :=
  if h : l < screencols then
    if screencols - l = rstatus.length then rstatus
    else ' ' :: statusPad screencols rstatus (l + 1)
  else []
termination_by screencols - l
decreasing_by omega

/-- The visible characters of the status bar line built by
`editor_draw_status_bar` in src/lib.rs (between the reverse-video escape
sequences): the truncated left text followed by the padding loop. -/
def editor_draw_status_bar (e : Kilo) : List Char :=
  statusLeft e ++ statusPad e.screencols (statusRight e) (statusLeft e).length

theorem statusPad_spec (W : Nat) (rs : List Char) (hrs : rs ≠ []) (l : Nat) :
    (l + rs.length ≤ W →
      statusPad W rs l = List.replicate (W - l - rs.length) ' ' ++ rs) ∧
    (W < l + rs.length → statusPad W rs l = List.replicate (W - l) ' ') := by
  have hlen : 0 < rs.length := List.length_pos.mpr hrs
  generalize hk : W - l = k
  induction k generalizing l with
  | zero =>
    rw [statusPad, dif_neg (by omega)]
    constructor
    · intro h
      omega
    · intro _
      rfl
  | succ k ih =>
    rw [statusPad, dif_pos (by omega)]
    by_cases he : W - l = rs.length
    · rw [if_pos he]
      constructor
      · intro _
        rw [show k + 1 - rs.length = 0 from by omega, List.replicate_zero,
          List.nil_append]
      · intro h
        omega
    · rw [if_neg he]
      have ih2 := ih (l + 1) (by omega)
      constructor
      · intro h
        rw [ih2.1 (by omega),
          show k + 1 - rs.length = (k - rs.length) + 1 from by omega,
          List.replicate_succ, List.cons_append]
      · intro h
        rw [ih2.2 (by omega), List.replicate_succ]

/-- Claim C10: the status bar's visible text is always exactly `screencols`
characters; the right indicator is appended exactly when the left text
leaves at least its length of room (placed so that it ends flush at the
right edge, preceded only by spaces), and is omitted entirely — not
truncated — when the room left is smaller than its length. -/
theorem editor_draw_status_bar_width (e : Kilo) :
    (editor_draw_status_bar e).length = e.screencols ∧
    ((statusLeft e).length + (statusRight e).length ≤ e.screencols →
      editor_draw_status_bar e =
        statusLeft e
          ++ List.replicate
              (e.screencols - (statusLeft e).length - (statusRight e).length) ' '
          ++ statusRight e) ∧
    (e.screencols < (statusLeft e).length + (statusRight e).length →
      editor_draw_status_bar e =
        statusLeft e ++ List.replicate (e.screencols - (statusLeft e).length) ' ') := by
  have hrs : statusRight e ≠ [] := by
    unfold statusRight
    intro hc
    exact natDigits_ne_nil (e.cy + 1) (List.append_eq_nil.mp hc).1
  have hL : (statusLeft e).length ≤ e.screencols := by
    unfold statusLeft
    simp
  have hpad := statusPad_spec e.screencols (statusRight e) hrs (statusLeft e).length
  refine ⟨?_, ?_, ?_⟩
  · by_cases h : (statusLeft e).length + (statusRight e).length ≤ e.screencols
    · rw [editor_draw_status_bar, hpad.1 h]
      simp only [List.length_append, List.length_replicate]
      omega
    · rw [editor_draw_status_bar, hpad.2 (by omega)]
      simp only [List.length_append, List.length_replicate]
      omega
  · intro h
    rw [editor_draw_status_bar, hpad.1 h, List.append_assoc]
  · intro h
    rw [editor_draw_status_bar, hpad.2 h]

/-- Witness for C10 at the concrete state `kiloW`, whose left text fills the
whole 10-column width, so the 3-character indicator `1/1` is omitted. -/
theorem editor_draw_status_bar_width_witness :
    kiloW.screencols < (statusLeft kiloW).length + (statusRight kiloW).length ∧
      editor_draw_status_bar kiloW =
        statusLeft kiloW
          ++ List.replicate (kiloW.screencols - (statusLeft kiloW).length) ' ' :=
  ⟨by decide, (editor_draw_status_bar_width kiloW).2.2 (by decide)⟩

end KiloRs
